import Mathlib

/-!
Shallow embedding of `jupyter_server/utils.py` (path mapping, version
comparison, the async/sync execution bridge `ensure_async` / `run_sync`,
and the `deprecated` decorator), together with theorems settling the
specification claims about those functions.

Python strings are modelled as `List Char` (`PyStr`); the POSIX path
separator `os.sep` is the character `'/'`.
-/

/-- Python strings, modelled as lists of characters. -/
abbrev PyStr := List Char

/-- The POSIX path separator: `os.sep` and `os.path.sep` are both `'/'`. -/
def osSep : Char := '/'

/-- Python `s.strip(c)` for a single strip character `c`: remove all leading
and all trailing occurrences of `c`. -/
def pyStrip (c : Char) (s : PyStr) : PyStr :=
  ((s.dropWhile (fun x => x = c)).reverse.dropWhile (fun x => x = c)).reverse

/-- Python `s.split(c)` for a single separator character `c`: splitting the
empty string gives `[""]`, and adjacent separators produce empty fields. -/
def pySplit (c : Char) : PyStr → List PyStr
  | [] => [[]]
  | x :: xs =>
    match pySplit c xs with
    | [] => [[]]
    | t :: ts => if x = c then [] :: t :: ts else (x :: t) :: ts

/-- Python `c.join(parts)` for a single-character joiner. -/
def pyJoin (c : Char) : List PyStr → PyStr
  | [] => []
  | [p] => p
  | p :: q :: ps => p ++ c :: pyJoin c (q :: ps)

/-- Python `s.startswith(pre)`: `pre` is a literal leading substring of `s`. -/
def pyStartsWith (pre s : PyStr) : Bool := s.take pre.length = pre

/-- One step of POSIX `os.path.join`: append component `b` to the
accumulated path, resetting on an absolute component, and inserting a
separator unless the accumulator is empty or already ends in one. -/
def osJoinStep (path b : PyStr) : PyStr :=
  if b.take 1 = [osSep] then b
  else if path = [] ∨ path.reverse.head? = some osSep then path ++ b
  else path ++ osSep :: b

/-- POSIX `os.path.join(root, *parts)`. -/
def os_path_join (root : PyStr) (parts : List PyStr) : PyStr :=
  parts.foldl osJoinStep root

/-- `to_os_path(path, root)` from `jupyter_server/utils.py`: convert an API
path to a filesystem path, prepending `root`.  Mirrors
`parts = path.strip('/').split('/')`, removal of empty parts, and
`os.path.join(root, *parts)`. -/
def to_os_path (path : PyStr) (root : PyStr) : PyStr :=
  let parts := pySplit osSep (pyStrip osSep path)
  let parts2 := parts.filter (fun p => p ≠ [])
  os_path_join root parts2

/-- `to_api_path(os_path, root)` from `jupyter_server/utils.py`: if
`os_path` starts with `root` (literal string prefix), remove it; then
split on `os.path.sep`, drop empty parts and join with `'/'`. -/
def to_api_path (os_path : PyStr) (root : PyStr) : PyStr :=
  let os_path2 := if pyStartsWith root os_path then os_path.drop root.length else os_path
  let parts := pySplit osSep (pyStrip osSep os_path2)
  let parts2 := parts.filter (fun p => p ≠ [])
  pyJoin osSep parts2

/-- Modelled from the spec: the normalization named by the claims, "p with
duplicate and leading/trailing slashes collapsed". -/
def normalizePath (p : PyStr) : PyStr :=
  pyJoin osSep ((pySplit osSep (pyStrip osSep p)).filter (fun t => t ≠ []))

/-- Concatenation of parts, each preceded by one separator (the shape of the
suffix that `os.path.join` builds after its first component). -/
def sepConcat : List PyStr → PyStr
  | [] => []
  | b :: bs => osSep :: b ++ sepConcat bs

/-- The separator padding `os.path.join` inserts between a nonempty root not
ending in a separator and the first path component. -/
def rootPad (root : PyStr) : PyStr :=
  if root = [] ∨ root.reverse.head? = some osSep then [] else [osSep]

/-- Lowercase ASCII letter, the `[a-z]` alternative of
`LooseVersion.component_re`. -/
def isVerAlpha (c : Char) : Bool := 'a' ≤ c && c ≤ 'z'

/-- Characters matched by no alternative of `LooseVersion.component_re`;
maximal runs of these survive `re.split` as inter-match text. -/
def isVerOther (c : Char) : Bool := !(c = '.' || c.isDigit || isVerAlpha c)

/-- Character class for tokenization: digit run, lowercase run, or other
run (the dot is handled separately and never accumulates into a run). -/
def verTokClass (c : Char) : Nat :=
  if c.isDigit then 1 else if isVerAlpha c then 2 else if c = '.' then 0 else 3

/-- Worker for `verTokenize`: the second argument is the class and reversed
characters of the run currently being accumulated, if any. -/
def verTokenizeAux : PyStr → Option (Nat × PyStr) → List PyStr
  | [], none => []
  | [], some (_, acc) => [acc.reverse]
  | c :: cs, none =>
    if c = '.' then ['.'] :: verTokenizeAux cs none
    else verTokenizeAux cs (some (verTokClass c, [c]))
  | c :: cs, some (k, acc) =>
    if c = '.' then acc.reverse :: ['.'] :: verTokenizeAux cs none
    else if verTokClass c = k then verTokenizeAux cs (some (k, c :: acc))
    else acc.reverse :: verTokenizeAux cs (some (verTokClass c, [c]))

/-- Tokenization performed by
`LooseVersion.component_re.split(vstring)` (ASCII digits): maximal digit
runs, maximal lowercase runs, single dots, and maximal runs of any other
characters, in input order, with empty inter-match pieces dropped. -/
def verTokenize (s : PyStr) : List PyStr := verTokenizeAux s none

/-- Numeric value of a digit run, as computed by Python `int`. -/
def natOfDigits (s : PyStr) : Nat :=
  s.foldl (fun a c => a * 10 + (c.toNat - Char.toNat '0')) 0

/-- A `LooseVersion` component: `int(obj)` when the token is a digit run,
the raw string otherwise. -/
inductive VerComp where
  | num (n : Nat)
  | str (s : PyStr)
deriving DecidableEq

/-- `LooseVersion.parse`: tokenize, drop `'.'` tokens and empty pieces, and
convert digit runs to integers. -/
def parseVersion (v : PyStr) : List VerComp :=
  ((verTokenize v).filter (fun t => t ≠ [] ∧ t ≠ ['.'])).map
    (fun t => if t.all Char.isDigit then VerComp.num (natOfDigits t) else VerComp.str t)

/-- Python string comparison: lexicographic by code point. -/
def strCmpLex : PyStr → PyStr → Ordering
  | [], [] => .eq
  | [], _ :: _ => .lt
  | _ :: _, [] => .gt
  | a :: as, b :: bs =>
    if a < b then .lt else if b < a then .gt else strCmpLex as bs

/-- Ordering of two version components; comparing a number with a string is
the Python 3 `TypeError`, modelled as `Except.error ()`. -/
def verCompCmp : VerComp → VerComp → Except Unit Ordering
  | .num a, .num b => .ok (if a < b then .lt else if b < a then .gt else .eq)
  | .str a, .str b => .ok (strCmpLex a b)
  | .num _, .str _ => .error ()
  | .str _, .num _ => .error ()

/-- Python list comparison on component lists: first differing pair decides;
a strict prefix is smaller; ordering a number against a string raises
`TypeError` (`Except.error ()`). -/
def verListCmp : List VerComp → List VerComp → Except Unit Ordering
  | [], [] => .ok .eq
  | [], _ :: _ => .ok .lt
  | _ :: _, [] => .ok .gt
  | a :: as, b :: bs => if a = b then verListCmp as bs else verCompCmp a b

/-- `check_version(v, check)` from `jupyter_server/utils.py`:
`LooseVersion(v) >= LooseVersion(check)`, with a `TypeError` from the
comparison treated as satisfied (`True`). -/
def check_version (v check : PyStr) : Bool :=
  match verListCmp (parseVersion v) (parseVersion check) with
  | .ok o => o ≠ Ordering.lt
  | .error _ => true

/-- Python exceptions relevant to the bridge: `RuntimeError` with its
message, the `UnboundLocalError` raised by reading an unassigned local, and
any other exception identified by an opaque tag. -/
inductive Exc where
  | runtimeError (msg : String)
  | unboundLocalError (localName : String)
  | otherError (tag : String)
deriving DecidableEq

/-- Message of the `RuntimeError` raised when a coroutine is awaited a
second time. -/
def reuseMsg : String := "cannot reuse already awaited coroutine"

/-- Message of the `RuntimeError` raised by `run_until_complete` on a loop
that is already running. -/
def busyMsg : String := "This event loop is already running"

deriving instance DecidableEq for Except

/-- A coroutine object: the outcome its body produces when first driven,
how many times the body has been executed, and whether it has already been
awaited (exhausted). -/
structure Coro (α : Type) where
  result : Except Exc α
  runs : Nat
  awaited : Bool
deriving DecidableEq

/-- A Python value as seen by the bridge: either a plain (non-awaitable)
value or a coroutine (`inspect.isawaitable` distinguishes the two). -/
inductive Obj (α : Type) where
  | plain (v : α)
  | coro (c : Coro α)
deriving DecidableEq

/-- Awaiting a coroutine: a fresh one executes its body once (successfully
or raising) and becomes exhausted; an exhausted one raises
`RuntimeError(reuseMsg)` without executing anything. -/
def awaitCoro {α : Type} (c : Coro α) : Except Exc α × Coro α :=
  if c.awaited then (.error (.runtimeError reuseMsg), c)
  else (c.result, { c with runs := c.runs + 1, awaited := true })

/-- `ensure_async(obj)` from `jupyter_server/utils.py`: a non-awaitable is
returned as-is; an awaitable is awaited, a `RuntimeError` whose message is
exactly `reuseMsg` makes it return `obj` itself, and any other exception is
re-raised unchanged.  Returns the outcome paired with the final state of
`obj`. -/
def ensure_async {α : Type} (obj : Obj α) : Except Exc (Obj α) × Obj α :=
  match obj with
  | .plain v => (.ok (.plain v), .plain v)
  | .coro c =>
    match awaitCoro c with
    | (.ok v, c') => (.ok (.plain v), .coro c')
    | (.error (.runtimeError m), c') =>
      if m = reuseMsg then (.ok (.coro c'), .coro c')
      else (.error (.runtimeError m), .coro c')
    | (.error e, c') => (.error e, .coro c')

/-- An asyncio event loop as `run_sync` observes it. -/
structure EventLoop where
  closed : Bool
  running : Bool
deriving DecidableEq

/-- Outcome of `asyncio.get_event_loop()`: a loop, or the `RuntimeError` it
raises when the thread has no current loop. -/
inductive GetLoopResult where
  | ok (l : EventLoop)
  | err
deriving DecidableEq

/-- What `run_sync` hands back: the non-awaitable input unchanged, the
resolved result of `run_until_complete`, or a pending `asyncio` future
wrapping the still-unfinished coroutine. -/
inductive SyncOut (α : Type) where
  | value (o : Obj α)
  | completed (v : α)
  | pendingFuture (c : Coro α)
deriving DecidableEq

/-- `run_sync(maybe_async)` from `jupyter_server/utils.py`.  A non-awaitable
is returned as-is.  Otherwise `wrapped()` picks the current event loop
(creating a fresh one when `get_event_loop` raises or the loop is closed)
and calls `run_until_complete`; on a running loop that call raises
`RuntimeError(busyMsg)` before executing the coroutine.  The `except
RuntimeError` clause assigns `result = asyncio.ensure_future(maybe_async)`
only when the message is exactly `busyMsg`; for any other `RuntimeError`
the local `result` is still unassigned at `return result`, which raises
`UnboundLocalError`.  Non-`RuntimeError` exceptions propagate unchanged.
Returns the outcome paired with whether a new event loop was created. -/
def run_sync {α : Type} (env : GetLoopResult) (maybe_async : Obj α) :
    Except Exc (SyncOut α) × Bool :=
  match maybe_async with
  | .plain v => (.ok (.value (.plain v)), false)
  | .coro c =>
    let create_new_event_loop :=
      match env with
      | .err => true
      | .ok l => l.closed
    let loop : EventLoop :=
      if create_new_event_loop then { closed := false, running := false }
      else
        match env with
        | .ok l => l
        | .err => { closed := false, running := false }
    if loop.running then
      (.ok (.pendingFuture c), create_new_event_loop)
    else
      match awaitCoro c with
      | (.ok v, _) => (.ok (.completed v), create_new_event_loop)
      | (.error (.runtimeError m), c') =>
        if m = busyMsg then (.ok (.pendingFuture c'), create_new_event_loop)
        else (.error (.unboundLocalError "result"), create_new_event_loop)
      | (.error e, _) => (.error e, create_new_event_loop)

/-- A warning or warning-category exception: the category name paired with
the message. -/
structure WarnMsg where
  category : String
  message : PyStr
deriving DecidableEq

/-- The `deprecated` decorator's configuration (`alt_func`, `behavior`,
`removed_version`). -/
structure deprecated where
  alt_func : Option PyStr
  behavior : PyStr
  removed_version : Option PyStr

/-- The message built in `deprecated.__call__`:
`'Function ``%s`` is deprecated' % func.__name__ + rmv_msg + '.' + alt_msg`. -/
def deprecatedMsg (d : deprecated) (funcName : PyStr) : PyStr :=
  let alt_msg :=
    match d.alt_func with
    | some a => String.toList " Use ``" ++ a ++ String.toList "`` instead."
    | none => []
  let rmv_msg :=
    match d.removed_version with
    | some rv => String.toList " and will be removed in version " ++ rv
    | none => []
  String.toList "Function ``" ++ funcName ++ String.toList "`` is deprecated"
    ++ rmv_msg ++ String.toList "." ++ alt_msg

/-- One invocation of the wrapper built by `deprecated.__call__`: in
`'warn'` mode it emits exactly one `DeprecationWarning` (the decorator sets
the `'always'` filter, then calls `warnings.warn_explicit`) and returns
`func(*args, **kwargs)`; in `'raise'` mode it raises `DeprecationWarning`
without calling `func`; any other mode calls `func` silently.  The second
component of a successful outcome lists the warnings emitted by this
call. -/
def deprecatedCall {α β : Type} (d : deprecated) (f : α → β) (funcName : PyStr)
    (x : α) : Except WarnMsg (β × List WarnMsg) :=
  if d.behavior = String.toList "warn" then
    .ok (f x, [⟨"DeprecationWarning", deprecatedMsg d funcName⟩])
  else if d.behavior = String.toList "raise" then
    .error ⟨"DeprecationWarning", deprecatedMsg d funcName⟩
  else
    .ok (f x, [])

/-! ### Helper lemmas about the string primitives -/

theorem take_len_append (l₁ l₂ : List Char) : (l₁ ++ l₂).take l₁.length = l₁ := by
  induction l₁ with
  | nil => simp
  | cons x xs ih => simp [ih]

theorem drop_len_append (l₁ l₂ : List Char) : (l₁ ++ l₂).drop l₁.length = l₂ := by
  induction l₁ with
  | nil => simp
  | cons x xs ih => simp [ih]

theorem head?_append_left (l₁ l₂ : List Char) (h : l₁ ≠ []) :
    (l₁ ++ l₂).head? = l₁.head? := by
  cases l₁ with
  | nil => exact absurd rfl h
  | cons x xs => simp

theorem pySplit_ne_nil (c : Char) (s : PyStr) : ∃ t ts, pySplit c s = t :: ts := by
  induction s with
  | nil => exact ⟨[], [], rfl⟩
  | cons x xs ih =>
    obtain ⟨t, ts, h⟩ := ih
    by_cases hx : x = c
    · exact ⟨[], t :: ts, by simp [pySplit, h, hx]⟩
    · exact ⟨x :: t, ts, by simp [pySplit, h, hx]⟩

theorem pySplit_sep_not_mem (c : Char) (s : PyStr) : ∀ t ∈ pySplit c s, c ∉ t := by
  induction s with
  | nil =>
    intro t ht
    simp [pySplit] at ht
    simp [ht]
  | cons x xs ih =>
    obtain ⟨t₀, ts, h⟩ := pySplit_ne_nil c xs
    have ht₀ : c ∉ t₀ := ih t₀ (by simp [h])
    have hts : ∀ u ∈ ts, c ∉ u := fun u hu => ih u (by simp [h, hu])
    intro t ht
    simp only [pySplit, h] at ht
    by_cases hx : x = c
    · rw [if_pos hx] at ht
      rcases List.mem_cons.mp ht with rfl | ht2
      · simp
      · rcases List.mem_cons.mp ht2 with rfl | ht3
        · exact ht₀
        · exact hts t ht3
    · rw [if_neg hx] at ht
      rcases List.mem_cons.mp ht with rfl | ht2
      · intro hc
        rcases List.mem_cons.mp hc with h1 | h2
        · exact hx h1.symm
        · exact ht₀ h2
      · exact hts t ht2

theorem pySplit_of_not_mem (c : Char) (p : PyStr) (hp : c ∉ p) : pySplit c p = [p] := by
  induction p with
  | nil => rfl
  | cons x xs ih =>
    have hx : ¬x = c := fun h => hp (by simp [h])
    have hxs : c ∉ xs := fun h => hp (by simp [h])
    simp [pySplit, ih hxs, hx]

theorem pySplit_append_sep (c : Char) (p t : PyStr) (hp : c ∉ p) :
    pySplit c (p ++ c :: t) = p :: pySplit c t := by
  induction p with
  | nil =>
    obtain ⟨t₀, ts, h⟩ := pySplit_ne_nil c t
    simp [pySplit, h]
  | cons x xs ih =>
    have hx : ¬x = c := fun h => hp (by simp [h])
    have hxs : c ∉ xs := fun h => hp (by simp [h])
    have hrec := ih hxs
    have hshape : (x :: xs) ++ c :: t = x :: (xs ++ c :: t) := rfl
    rw [hshape]
    simp only [pySplit, hrec, if_neg hx]

theorem pyJoin_cons_eq (p : PyStr) (ps : List PyStr) :
    pyJoin osSep (p :: ps) = p ++ sepConcat ps := by
  induction ps generalizing p with
  | nil => simp [pyJoin, sepConcat]
  | cons q qs ih => simp [pyJoin, sepConcat, ih q]

theorem pySplit_pyJoin (parts : List PyStr) (hsep : ∀ b ∈ parts, osSep ∉ b)
    (hne : parts ≠ []) : pySplit osSep (pyJoin osSep parts) = parts := by
  induction parts with
  | nil => exact absurd rfl hne
  | cons p ps ih =>
    cases ps with
    | nil => exact pySplit_of_not_mem osSep p (hsep p (by simp))
    | cons q qs =>
      have h1 : pyJoin osSep (p :: q :: qs) = p ++ osSep :: pyJoin osSep (q :: qs) := rfl
      rw [h1, pySplit_append_sep osSep p _ (hsep p (by simp))]
      rw [ih (fun b hb => hsep b (by simp [hb])) (by simp)]

theorem dropWhile_eq_self_of_head? (c : Char) (l : PyStr) (h : l.head? ≠ some c) :
    l.dropWhile (fun x => x = c) = l := by
  cases l with
  | nil => rfl
  | cons x xs =>
    have hx : ¬(x = c) := fun hh => h (by simp [hh])
    simp [List.dropWhile_cons, hx]

theorem pyStrip_pad (c : Char) (s w : PyStr) (hs : ∀ x ∈ s, x = c)
    (h1 : w.head? ≠ some c) (h2 : w.reverse.head? ≠ some c) :
    pyStrip c (s ++ w) = w := by
  have hdrop : (s ++ w).dropWhile (fun x => x = c) = w := by
    induction s with
    | nil => simpa using dropWhile_eq_self_of_head? c w h1
    | cons x xs ih =>
      have hx : x = c := hs x (by simp)
      have ihh := ih (fun y hy => hs y (by simp [hy]))
      simp [List.dropWhile_cons, hx, ihh]
  unfold pyStrip
  rw [hdrop, dropWhile_eq_self_of_head? c w.reverse h2, List.reverse_reverse]

theorem head?_ne_of_not_mem (c : Char) (l : PyStr) (h : c ∉ l) : l.head? ≠ some c := by
  cases l with
  | nil => simp
  | cons x xs =>
    simp only [List.head?_cons, ne_eq, Option.some.injEq]
    intro hx
    exact h (by simp [hx])

theorem pyJoin_facts (parts : List PyStr) (hne : parts ≠ [])
    (h : ∀ b ∈ parts, b ≠ [] ∧ osSep ∉ b) :
    pyJoin osSep parts ≠ [] ∧ (pyJoin osSep parts).head? ≠ some osSep ∧
      (pyJoin osSep parts).reverse.head? ≠ some osSep := by
  induction parts with
  | nil => exact absurd rfl hne
  | cons p ps ih =>
    obtain ⟨hp, hpsep⟩ := h p (by simp)
    cases ps with
    | nil =>
      refine ⟨hp, head?_ne_of_not_mem osSep p hpsep, ?_⟩
      have : osSep ∉ p.reverse := by simpa using hpsep
      exact head?_ne_of_not_mem osSep p.reverse this
    | cons q qs =>
      obtain ⟨hJne, hJh, hJr⟩ := ih (by simp) (fun b hb => h b (by simp [hb]))
      have hjoin : pyJoin osSep (p :: q :: qs) = p ++ osSep :: pyJoin osSep (q :: qs) := rfl
      refine ⟨by simp [hjoin, hp], ?_, ?_⟩
      · rw [hjoin, head?_append_left p _ hp]
        exact head?_ne_of_not_mem osSep p hpsep
      · rw [hjoin, List.reverse_append, List.reverse_cons,
          head?_append_left _ _ (by simp [hJne])]
        rwa [head?_append_left _ _ (by simpa using hJne)]

theorem reverse_head?_ne_of_not_mem (c : Char) (l : PyStr) (h : c ∉ l) :
    l.reverse.head? ≠ some c :=
  head?_ne_of_not_mem c l.reverse (by simpa using h)

theorem osJoinStep_of_clean (acc b : PyStr) (hb : b ≠ []) (hbsep : osSep ∉ b)
    (hacc : acc ≠ []) (hlast : acc.reverse.head? ≠ some osSep) :
    osJoinStep acc b = acc ++ osSep :: b := by
  unfold osJoinStep
  have h1 : ¬(b.take 1 = [osSep]) := by
    cases b with
    | nil => exact absurd rfl hb
    | cons y ys =>
      have hy : y ≠ osSep := fun h => hbsep (by simp [h])
      simp [hy]
  rw [if_neg h1, if_neg (by rintro (h | h) <;> [exact hacc h; exact hlast h])]

theorem foldl_osJoinStep (ps : List PyStr) (h : ∀ b ∈ ps, b ≠ [] ∧ osSep ∉ b)
    (acc : PyStr) (hacc : acc ≠ []) (hlast : acc.reverse.head? ≠ some osSep) :
    ps.foldl osJoinStep acc = acc ++ sepConcat ps := by
  induction ps generalizing acc with
  | nil => simp [sepConcat]
  | cons b bs ih =>
    obtain ⟨hb, hbsep⟩ := h b (by simp)
    have hstep := osJoinStep_of_clean acc b hb hbsep hacc hlast
    have hacc' : acc ++ osSep :: b ≠ [] := by simp
    have hlast' : (acc ++ osSep :: b).reverse.head? ≠ some osSep := by
      rw [List.reverse_append, List.reverse_cons,
        head?_append_left _ _ (by simp [hb]),
        head?_append_left _ _ (by simpa using hb)]
      exact reverse_head?_ne_of_not_mem osSep b hbsep
    calc (b :: bs).foldl osJoinStep acc
        = bs.foldl osJoinStep (acc ++ osSep :: b) := by rw [List.foldl_cons, hstep]
      _ = (acc ++ osSep :: b) ++ sepConcat bs :=
          ih (fun u hu => h u (by simp [hu])) _ hacc' hlast'
      _ = acc ++ sepConcat (b :: bs) := by simp [sepConcat]

theorem rootPad_all_sep (root : PyStr) : ∀ x ∈ rootPad root, x = osSep := by
  unfold rootPad
  split
  · simp
  · simp

theorem os_path_join_clean (root : PyStr) (parts : List PyStr)
    (h : ∀ b ∈ parts, b ≠ [] ∧ osSep ∉ b) (hne : parts ≠ []) :
    os_path_join root parts = root ++ rootPad root ++ pyJoin osSep parts := by
  cases parts with
  | nil => exact absurd rfl hne
  | cons p ps =>
    obtain ⟨hp, hpsep⟩ := h p (by simp)
    have hstep : osJoinStep root p = root ++ rootPad root ++ p := by
      unfold osJoinStep rootPad
      have h1 : ¬(p.take 1 = [osSep]) := by
        cases p with
        | nil => exact absurd rfl hp
        | cons y ys =>
          have hy : y ≠ osSep := fun hh => hpsep (by simp [hh])
          simp [hy]
      rw [if_neg h1]
      split
      · simp
      · simp
    have hacc' : root ++ rootPad root ++ p ≠ [] := by simp [hp]
    have hlast' : (root ++ rootPad root ++ p).reverse.head? ≠ some osSep := by
      rw [List.reverse_append, head?_append_left _ _ (by simpa using hp)]
      exact reverse_head?_ne_of_not_mem osSep p hpsep
    calc os_path_join root (p :: ps)
        = ps.foldl osJoinStep (osJoinStep root p) := rfl
      _ = ps.foldl osJoinStep (root ++ rootPad root ++ p) := by rw [hstep]
      _ = (root ++ rootPad root ++ p) ++ sepConcat ps :=
          foldl_osJoinStep ps (fun u hu => h u (by simp [hu])) _ hacc' hlast'
      _ = root ++ rootPad root ++ pyJoin osSep (p :: ps) := by
          rw [pyJoin_cons_eq]; simp

theorem to_os_path_eq (path root : PyStr) :
    to_os_path path root =
      os_path_join root ((pySplit osSep (pyStrip osSep path)).filter (fun t => t ≠ [])) := rfl

theorem to_api_path_eq (q root : PyStr) :
    to_api_path q root =
      pyJoin osSep ((pySplit osSep (pyStrip osSep
        (if pyStartsWith root q then q.drop root.length else q))).filter (fun t => t ≠ [])) := rfl

theorem cleanParts_facts (s : PyStr) :
    ∀ b ∈ (pySplit osSep (pyStrip osSep s)).filter (fun t => t ≠ []),
      b ≠ [] ∧ osSep ∉ b := by
  intro b hb
  rw [List.mem_filter] at hb
  obtain ⟨hmem, hne⟩ := hb
  exact ⟨by simpa using hne, pySplit_sep_not_mem osSep _ b hmem⟩

theorem to_api_path_to_os_path (p root : PyStr) :
    to_api_path (to_os_path p root) root = normalizePath p := by
  have hfacts := cleanParts_facts p
  rcases hsplit : (pySplit osSep (pyStrip osSep p)).filter (fun t => t ≠ []) with _ | ⟨q, qs⟩
  · have h1 : to_os_path p root = root := by
      show os_path_join root ((pySplit osSep (pyStrip osSep p)).filter (fun t => t ≠ [])) = root
      rw [hsplit]
      rfl
    have h2 : normalizePath p = [] := by
      show pyJoin osSep ((pySplit osSep (pyStrip osSep p)).filter (fun t => t ≠ [])) = []
      rw [hsplit]
      rfl
    rw [h1, h2, to_api_path_eq]
    have h3 : pyStartsWith root root = true := by simp [pyStartsWith]
    rw [if_pos h3, List.drop_length]
    rfl
  · have hall : ∀ b ∈ q :: qs, b ≠ [] ∧ osSep ∉ b :=
      fun b hb => hfacts b (by rw [hsplit]; exact hb)
    have h1 : to_os_path p root = root ++ rootPad root ++ pyJoin osSep (q :: qs) := by
      show os_path_join root ((pySplit osSep (pyStrip osSep p)).filter (fun t => t ≠ [])) = _
      rw [hsplit]
      exact os_path_join_clean root (q :: qs) hall (by simp)
    have h2 : normalizePath p = pyJoin osSep (q :: qs) := by
      show pyJoin osSep ((pySplit osSep (pyStrip osSep p)).filter (fun t => t ≠ [])) = _
      rw [hsplit]
    obtain ⟨hJne, hJh, hJr⟩ := pyJoin_facts (q :: qs) (by simp) hall
    rw [h1, h2, to_api_path_eq]
    have hsw : pyStartsWith root (root ++ rootPad root ++ pyJoin osSep (q :: qs)) = true := by
      simp only [pyStartsWith, List.append_assoc, take_len_append]
      simp
    rw [if_pos hsw]
    have hdrop : (root ++ rootPad root ++ pyJoin osSep (q :: qs)).drop root.length
        = rootPad root ++ pyJoin osSep (q :: qs) := by
      rw [List.append_assoc]
      exact drop_len_append root _
    rw [hdrop, pyStrip_pad osSep (rootPad root) _ (rootPad_all_sep root) hJh hJr,
      pySplit_pyJoin (q :: qs) (fun b hb => (hall b hb).2) (by simp),
      List.filter_eq_self.mpr (fun b hb => by simpa using (hall b hb).1)]

theorem os_api_roundtrip_empty_root (q : PyStr) :
    to_os_path (to_api_path q []) [] = normalizePath q := by
  have h0 : to_api_path q [] = normalizePath q := by
    rw [to_api_path_eq]
    have h1 : pyStartsWith [] q = true := by simp [pyStartsWith]
    rw [if_pos h1]
    rfl
  rw [h0]
  have hfacts := cleanParts_facts q
  rcases hsplit : (pySplit osSep (pyStrip osSep q)).filter (fun t => t ≠ []) with _ | ⟨a, as⟩
  · have h2 : normalizePath q = [] := by
      show pyJoin osSep ((pySplit osSep (pyStrip osSep q)).filter (fun t => t ≠ [])) = []
      rw [hsplit]
      rfl
    rw [h2]
    rfl
  · have hall : ∀ b ∈ a :: as, b ≠ [] ∧ osSep ∉ b :=
      fun b hb => hfacts b (by rw [hsplit]; exact hb)
    have h2 : normalizePath q = pyJoin osSep (a :: as) := by
      show pyJoin osSep ((pySplit osSep (pyStrip osSep q)).filter (fun t => t ≠ [])) = _
      rw [hsplit]
    rw [h2]
    obtain ⟨hJne, hJh, hJr⟩ := pyJoin_facts (a :: as) (by simp) hall
    rw [to_os_path_eq]
    have h4 : pyStrip osSep (pyJoin osSep (a :: as)) = pyJoin osSep (a :: as) := by
      have hpad := pyStrip_pad osSep [] (pyJoin osSep (a :: as)) (by simp) hJh hJr
      simpa using hpad
    rw [h4, pySplit_pyJoin (a :: as) (fun b hb => (hall b hb).2) (by simp),
      List.filter_eq_self.mpr (fun b hb => by simpa using (hall b hb).1),
      os_path_join_clean [] (a :: as) hall (by simp)]
    simp [rootPad]

/-! ### Claim theorems -/

/-- Claim C1 (counterexample): resolving an already-completed computation a
second time does not return the prior result `r` — for a coroutine already
driven to `42`, `ensure_async` does not return the plain value `42` (it
returns the exhausted coroutine object itself). -/
theorem ensure_async_second_resolution_not_result :
    (ensure_async (Obj.coro
      ({ result := .ok 42, runs := 1, awaited := true } : Coro Nat))).1
      ≠ .ok (.plain 42) := by decide

/-- Claim C1 (amended): calling `ensure_async` on an already-completed
(awaited) computation does not re-execute the underlying work (the
coroutine state, including its run count, is unchanged) and does not raise,
but it returns the exhausted computation handle itself, not the prior
result. -/
theorem ensure_async_completed_idempotent {α : Type} (c : Coro α)
    (h : c.awaited = true) :
    ensure_async (Obj.coro c) = (.ok (.coro c), .coro c) := by
  simp [ensure_async, awaitCoro, h]

/-- Witness for `ensure_async_completed_idempotent` at a concrete
already-completed coroutine. -/
theorem ensure_async_completed_idempotent_witness :
    ({ result := .ok 42, runs := 1, awaited := true } : Coro Nat).awaited = true ∧
    ensure_async (Obj.coro ({ result := .ok 42, runs := 1, awaited := true } : Coro Nat)) =
      (.ok (.coro { result := .ok 42, runs := 1, awaited := true }),
       .coro { result := .ok 42, runs := 1, awaited := true }) :=
  ⟨rfl, ensure_async_completed_idempotent _ rfl⟩

/-- Claim C2: whenever driving the computation fails with a `RuntimeError`
whose message is exactly `reuseMsg`, `ensure_async` treats this as success
and returns the computation object itself; the error is never surfaced. -/
theorem ensure_async_reuse_error_returns_input {α : Type} (c : Coro α)
    (h : (awaitCoro c).1 = Except.error (Exc.runtimeError reuseMsg)) :
    ensure_async (Obj.coro c) =
      (.ok (.coro (awaitCoro c).2), .coro (awaitCoro c).2) := by
  rcases hac : awaitCoro c with ⟨r, c'⟩
  rw [hac] at h
  simp only at h
  subst h
  simp [ensure_async, hac]

/-- Witness for `ensure_async_reuse_error_returns_input` at a concrete
already-awaited coroutine. -/
theorem ensure_async_reuse_error_returns_input_witness :
    (awaitCoro ({ result := .ok 9, runs := 1, awaited := true } : Coro Nat)).1
        = Except.error (Exc.runtimeError reuseMsg) ∧
    ensure_async (Obj.coro ({ result := .ok 9, runs := 1, awaited := true } : Coro Nat)) =
      (.ok (.coro (awaitCoro ({ result := .ok 9, runs := 1, awaited := true } : Coro Nat)).2),
       .coro (awaitCoro ({ result := .ok 9, runs := 1, awaited := true } : Coro Nat)).2) :=
  ⟨by decide, ensure_async_reuse_error_returns_input _ (by decide)⟩

/-- Claim C3: when the current event loop is already running (and not
closed), `run_sync` on a coroutine does not raise: it returns a pending
future wrapping the still-undriven coroutine instead of a resolved value,
and creates no new loop. -/
theorem run_sync_busy_loop_returns_pending {α : Type} (l : EventLoop) (c : Coro α)
    (h1 : l.running = true) (h2 : l.closed = false) :
    run_sync (GetLoopResult.ok l) (Obj.coro c) = (.ok (.pendingFuture c), false)
    ∧ ∀ v : α, (run_sync (GetLoopResult.ok l) (Obj.coro c)).1 ≠ .ok (.completed v) := by
  have hmain : run_sync (GetLoopResult.ok l) (Obj.coro c) = (.ok (.pendingFuture c), false) := by
    simp [run_sync, h1, h2]
  exact ⟨hmain, fun v => by simp [hmain]⟩

/-- Witness for `run_sync_busy_loop_returns_pending`: a running loop and a
computation that would resolve to `7` yield a pending future, not `7`. -/
theorem run_sync_busy_loop_returns_pending_witness :
    (⟨false, true⟩ : EventLoop).running = true ∧ (⟨false, true⟩ : EventLoop).closed = false ∧
    run_sync (GetLoopResult.ok ⟨false, true⟩)
        (Obj.coro ({ result := .ok 7, runs := 0, awaited := false } : Coro Nat)) =
      (.ok (.pendingFuture { result := .ok 7, runs := 0, awaited := false }), false) :=
  ⟨rfl, rfl,
    (run_sync_busy_loop_returns_pending ⟨false, true⟩
      ({ result := .ok 7, runs := 0, awaited := false } : Coro Nat) rfl rfl).1⟩

/-- Claim C4 (code divergence): `ensure_async` re-raises unclassified
errors verbatim (both non-`RuntimeError` exceptions and `RuntimeError`s
with other messages), but `run_sync` does not: a coroutine failing with
`RuntimeError("boom")` on a fresh usable loop makes `run_sync` raise
`UnboundLocalError` for the local `result` instead of propagating the
original error. -/
theorem run_sync_masks_unrelated_runtime_error :
    (ensure_async (Obj.coro
        ({ result := .error (.otherError "E"), runs := 0, awaited := false } : Coro Nat))).1
      = .error (.otherError "E")
    ∧ (ensure_async (Obj.coro
        ({ result := .error (.runtimeError "boom"), runs := 0, awaited := false } : Coro Nat))).1
      = .error (.runtimeError "boom")
    ∧ run_sync (GetLoopResult.ok ⟨false, false⟩)
        (Obj.coro ({ result := .error (.runtimeError "boom"), runs := 0, awaited := false } : Coro Nat))
      = (.error (.unboundLocalError "result"), false)
    ∧ (Except.error (Exc.unboundLocalError "result") : Except Exc (SyncOut Nat))
      ≠ .error (.runtimeError "boom") :=
  ⟨by decide, by decide, by decide, by decide⟩

/-- Claim C5: a plain (non-awaitable) input is returned unchanged by both
`ensure_async` and `run_sync`, with no coroutine driven and no event loop
created. -/
theorem bridge_plain_value_passthrough {α : Type} (v : α) (env : GetLoopResult) :
    ensure_async (Obj.plain v) = (.ok (.plain v), .plain v)
    ∧ run_sync env (Obj.plain v) = (.ok (.value (.plain v)), false) :=
  ⟨rfl, rfl⟩

/-- Claim C6: a fresh coroutine that resolves to `r` is driven exactly once
by `ensure_async`, which returns exactly `r`. -/
theorem ensure_async_fresh_coro_returns_result {α : Type} (c : Coro α) (r : α)
    (h1 : c.awaited = false) (h2 : c.result = .ok r) :
    ensure_async (Obj.coro c) =
      (.ok (.plain r), .coro { c with runs := c.runs + 1, awaited := true }) := by
  simp [ensure_async, awaitCoro, h1, h2]

/-- Witness for `ensure_async_fresh_coro_returns_result` at a concrete
fresh coroutine resolving to `5`. -/
theorem ensure_async_fresh_coro_returns_result_witness :
    ({ result := .ok 5, runs := 0, awaited := false } : Coro Nat).awaited = false ∧
    ({ result := .ok 5, runs := 0, awaited := false } : Coro Nat).result = .ok 5 ∧
    ensure_async (Obj.coro ({ result := .ok 5, runs := 0, awaited := false } : Coro Nat)) =
      (.ok (.plain 5), .coro { result := .ok 5, runs := 1, awaited := true }) :=
  ⟨rfl, rfl, ensure_async_fresh_coro_returns_result _ 5 rfl rfl⟩

/-- Claim C7 (counterexample): the OS-to-API-to-OS direction of the claimed
inverse pair fails: with root `"/tmp"` and filesystem path `"x"`, the round
trip yields `"/tmp/x"`, which is neither the original nor the original with
duplicate and leading/trailing separators collapsed. -/
theorem path_mapping_inverse_counterexample :
    to_os_path (to_api_path ("x".toList) ("/tmp".toList)) ("/tmp".toList) = "/tmp/x".toList
    ∧ ("/tmp/x".toList : PyStr) ≠ "x".toList
    ∧ normalizePath ("x".toList) = "x".toList :=
  ⟨by decide, by decide, by decide⟩

/-- Claim C7 (amended): for every API path `p` and root `r`,
`to_api_path (to_os_path p r) r` equals `p` with duplicate and
leading/trailing separators collapsed; the converse round trip holds in
the same normalized sense when the root is empty (for nonempty roots it
can fail, since the root is stripped by literal prefix match and
unconditionally re-prepended). -/
theorem path_mapping_inverse_amended :
    (∀ p root : PyStr, to_api_path (to_os_path p root) root = normalizePath p)
    ∧ (∀ q : PyStr, to_os_path (to_api_path q []) [] = normalizePath q) :=
  ⟨to_api_path_to_os_path, os_api_roundtrip_empty_root⟩

/-- Claim C8: `check_version v check` reports `v ≥ check` under the
`LooseVersion` component ordering whenever that comparison is defined, and
returns `True` whenever the comparison raises the string-vs-number
`TypeError`; concrete cases include numeric dotted ordering
(`1.10 ≥ 1.2`) and the permissive default on a mixed comparison
(`1.a` vs `1.2`). -/
theorem check_version_behavior :
    (∀ v check : PyStr, check_version v check = true ↔
        (verListCmp (parseVersion v) (parseVersion check) = .error ()
         ∨ verListCmp (parseVersion v) (parseVersion check) = .ok .eq
         ∨ verListCmp (parseVersion v) (parseVersion check) = .ok .gt))
    ∧ check_version ("1.10".toList) ("1.2".toList) = true
    ∧ check_version ("1.2".toList) ("1.10".toList) = false
    ∧ check_version ("1.2".toList) ("1.2".toList) = true
    ∧ verListCmp (parseVersion ("1.a".toList)) (parseVersion ("1.2".toList)) = .error ()
    ∧ check_version ("1.a".toList) ("1.2".toList) = true := by
  refine ⟨?_, by decide, by decide, by decide, by decide, by decide⟩
  intro v check
  rcases h : verListCmp (parseVersion v) (parseVersion check) with u | o
  · cases u
    simp [check_version, h]
  · cases o <;> simp [check_version, h]

/-- Claim C9: the wrapper built by the `deprecated` decorator in `'warn'`
mode emits exactly one `DeprecationWarning` whose message names the
replacement `a` and the removal version `rv`, and returns exactly
`f x`; in `'raise'` mode it raises a `DeprecationWarning` instead. -/
theorem deprecated_wrapper_behavior {α β : Type} (f : α → β) (x : α) (n a rv : PyStr) :
    deprecatedCall ⟨some a, "warn".toList, some rv⟩ f n x =
      .ok (f x, [⟨"DeprecationWarning", deprecatedMsg ⟨some a, "warn".toList, some rv⟩ n⟩])
    ∧ (∃ u w, deprecatedMsg ⟨some a, "warn".toList, some rv⟩ n = u ++ a ++ w)
    ∧ (∃ u w, deprecatedMsg ⟨some a, "warn".toList, some rv⟩ n = u ++ rv ++ w)
    ∧ deprecatedCall ⟨some a, "raise".toList, some rv⟩ f n x =
      .error ⟨"DeprecationWarning", deprecatedMsg ⟨some a, "raise".toList, some rv⟩ n⟩ := by
  refine ⟨?_, ?_, ?_, ?_⟩
  · rw [deprecatedCall, if_pos rfl]
  · refine ⟨"Function ``".toList ++ n ++ "`` is deprecated".toList
      ++ " and will be removed in version ".toList ++ rv ++ ".".toList
      ++ " Use ``".toList, "`` instead.".toList, ?_⟩
    simp [deprecatedMsg]
  · refine ⟨"Function ``".toList ++ n ++ "`` is deprecated".toList
      ++ " and will be removed in version ".toList, ".".toList
      ++ " Use ``".toList ++ a ++ "`` instead.".toList, ?_⟩
    simp [deprecatedMsg]
  · rw [deprecatedCall,
      if_neg ((by decide : ¬(("raise".toList : PyStr) = "warn".toList))),
      if_pos rfl]

/-- Claim C10: `to_api_path` strips the root by literal string-prefix match
only — the result is always the normalization of the input with the root
removed exactly when the input starts with the root as a raw string — so
root `"/tmp/foo"` is also stripped from `"/tmp/foobar/x"` (giving
`"bar/x"`), and an input not starting with the root is converted with the
root ignored and no error. -/
theorem to_api_path_literal_prefix_strip :
    (∀ q root : PyStr, to_api_path q root =
        if pyStartsWith root q then normalizePath (q.drop root.length) else normalizePath q)
    ∧ to_api_path ("/tmp/foobar/x".toList) ("/tmp/foo".toList) = "bar/x".toList
    ∧ pyStartsWith ("/tmp".toList) ("x".toList) = false
    ∧ to_api_path ("x".toList) ("/tmp".toList) = "x".toList := by
  refine ⟨?_, by decide, by decide, by decide⟩
  intro q root
  rw [to_api_path_eq]
  cases h : pyStartsWith root q
  · simp only [h, Bool.false_eq_true, if_false]
    rfl
  · simp only [h, if_true]
    rfl
